import Mathlib

/-!
Verification development for the godbrain-quantum core engine.

This file gives a shallow embedding of the C++ core (types.hpp,
orderbook.hpp, memory_pool.hpp, lock_free_queue.hpp,
execution_engine.hpp) and proves properties of the embedded
definitions.

Modelling conventions:
- `int64_t`/`size_t` fixed-point prices (micro) and quantities (nano)
  are embedded as unbounded `Int`/`Nat`; C++ `/` on `int64_t`
  (truncation toward zero) is `Int.tdiv`.
- `double` arithmetic is modelled exactly by `ℚ`.
- `std::unordered_map` is an association list with unique keys
  (insertion upserts, erase removes every binding of the key).
- Wall-clock timestamp fields (`created_at`, `updated_at`, ...) are
  dropped: no verified property mentions them.
- The engine's mutex-serialised call path is modelled by explicit
  state passing; the event callback fan-out is modelled by appending
  each emitted event to an event log.
-/

namespace Godbrain

/-- Price scale from types.hpp: prices are integers in micro-units. -/
def PRICE_SCALE : Int := 1000000

/-- Quantity scale from types.hpp: quantities are integers in nano-units. -/
def QUANTITY_SCALE : Int := 1000000000

/-- C++ `int64_t` division truncates toward zero, which is `Int.tdiv`. -/
def cppDiv (a b : Int) : Int := Int.tdiv a b

/-- Conversion `from_price_micro` (types.hpp), with `double` read as `ℚ`. -/
def from_price_micro (p : Int) : ℚ := (p : ℚ) / (PRICE_SCALE : ℚ)

/-- Conversion `from_quantity_nano` (types.hpp), with `double` read as `ℚ`. -/
def from_quantity_nano (q : Int) : ℚ := (q : ℚ) / (QUANTITY_SCALE : ℚ)

/-- Order side (types.hpp `Side`). -/
inductive Side
  | BUY
  | SELL
deriving DecidableEq, Repr

/-- Order type (types.hpp `OrderType`). -/
inductive OrderType
  | MARKET
  | LIMIT
  | STOP_MARKET
  | STOP_LIMIT
  | TRAILING_STOP
deriving DecidableEq, Repr

/-- Time in force (types.hpp `TimeInForce`). -/
inductive TimeInForce
  | GTC
  | IOC
  | FOK
  | GTD
deriving DecidableEq, Repr

/-- Order status (types.hpp `OrderStatus`). -/
inductive OrderStatus
  | PENDING
  | OPEN
  | PARTIALLY_FILLED
  | FILLED
  | CANCELLED
  | REJECTED
  | EXPIRED
deriving DecidableEq, Repr

/-- Error codes (types.hpp `ErrorCode`). -/
inductive ErrorCode
  | OK
  | INVALID_SYMBOL
  | INVALID_QUANTITY
  | INVALID_PRICE
  | INSUFFICIENT_MARGIN
  | RISK_LIMIT_EXCEEDED
  | ORDER_NOT_FOUND
  | POSITION_NOT_FOUND
  | NETWORK_ERROR
  | TIMEOUT_CODE
  | RATE_LIMITED_CODE
  | INTERNAL_ERROR
deriving DecidableEq, Repr

/-- Event type tags (execution_engine.hpp `EventType`). -/
inductive EventType
  | ORDER_SUBMITTED
  | ORDER_ACCEPTED
  | ORDER_REJECTED
  | ORDER_PARTIALLY_FILLED
  | ORDER_FILLED
  | ORDER_CANCELLED
  | POSITION_OPENED
  | POSITION_UPDATED
  | POSITION_CLOSED
  | RISK_ALERT
deriving DecidableEq, Repr

-- =============================================================================
-- Orderbook (orderbook.hpp)
-- =============================================================================

/-- Depth bound `MAX_ORDERBOOK_LEVELS` from orderbook.hpp. -/
def MAX_ORDERBOOK_LEVELS : Nat := 25

/-- Single price level (orderbook.hpp `PriceLevel`). -/
structure PriceLevel where
  price : Int
  quantity : Int
  order_count : Nat
deriving DecidableEq, Repr

/-- Orderbook state (orderbook.hpp `Orderbook`): the two fixed
25-element arrays are embedded as index functions, together with the
two depth counts, the sequence number and the timestamp. -/
structure Orderbook where
  bids : Nat → PriceLevel
  asks : Nat → PriceLevel
  bid_count : Nat
  ask_count : Nat
  sequence : Nat
  timestamp : Nat

/-- Source `Orderbook::update_bid`: in-place single-level mutation, guarded by
the depth bound, extending `bid_count` when the touched level is beyond
the previous depth.  The source writes only `price` and `quantity` of
the slot. -/
def update_bid (b : Orderbook) (level : Nat) (price qty : Int) : Orderbook :=
  if level < MAX_ORDERBOOK_LEVELS then
    { b with
      bids := fun i =>
        if i = level then { b.bids level with price := price, quantity := qty }
        else b.bids i
      bid_count := if level ≥ b.bid_count then level + 1 else b.bid_count }
  else b

/-- Source `Orderbook::update_ask`, mirror image of `update_bid`. -/
def update_ask (b : Orderbook) (level : Nat) (price qty : Int) : Orderbook :=
  if level < MAX_ORDERBOOK_LEVELS then
    { b with
      asks := fun i =>
        if i = level then { b.asks level with price := price, quantity := qty }
        else b.asks i
      ask_count := if level ≥ b.ask_count then level + 1 else b.ask_count }
  else b

/-- Source `Orderbook::best_bid`. -/
def best_bid (b : Orderbook) : Int :=
  if 0 < b.bid_count then (b.bids 0).price else 0

/-- Source `Orderbook::best_ask`. -/
def best_ask (b : Orderbook) : Int :=
  if 0 < b.ask_count then (b.asks 0).price else 0

/-- Source `Orderbook::mid_price` with the source's truncating integer division. -/
def mid_price (b : Orderbook) : Int := cppDiv (best_bid b + best_ask b) 2

/-- Source `Orderbook::total_bid_liquidity`: sum of bid quantities across the
first `min levels bid_count` levels. -/
def total_bid_liquidity (b : Orderbook) (levels : Nat) : Int :=
  ((List.range (min levels b.bid_count)).map (fun i => (b.bids i).quantity)).sum

/-- Source `Orderbook::total_ask_liquidity`. -/
def total_ask_liquidity (b : Orderbook) (levels : Nat) : Int :=
  ((List.range (min levels b.ask_count)).map (fun i => (b.asks i).quantity)).sum

/-- Source `Orderbook::imbalance`, with the source's `double` arithmetic read
as exact rational arithmetic. -/
def imbalance (b : Orderbook) (levels : Nat) : ℚ :=
  let bid_liq := total_bid_liquidity b levels
  let ask_liq := total_ask_liquidity b levels
  let total := bid_liq + ask_liq
  if total = 0 then 0
  else ((bid_liq - ask_liq : Int) : ℚ) / ((total : Int) : ℚ)

/-- Loop body of `Orderbook::estimate_execution_price`: walk a list of
levels while quantity remains, accumulating the truncated per-level
notional (`levels[i].price * fill / QUANTITY_SCALE`) and the filled
quantity.  Returns `(weighted_sum, filled)`. -/
def fill_walk : List PriceLevel → Int → Int × Int
  | [], _ => (0, 0)
  | l :: ls, remaining =>
    if 0 < remaining then
      let fill := min remaining l.quantity
      let rest := fill_walk ls (remaining - fill)
      (cppDiv (l.price * fill) QUANTITY_SCALE + rest.1, fill + rest.2)
    else (0, 0)

/-- Levels walked by `estimate_execution_price`: the first `count`
slots of the opposing side (asks for BUY, bids for SELL). -/
def opposing_levels (b : Orderbook) (side : Side) : List PriceLevel :=
  match side with
  | Side.BUY => (List.range b.ask_count).map b.asks
  | Side.SELL => (List.range b.bid_count).map b.bids

/-- Source `Orderbook::estimate_execution_price`. -/
def estimate_execution_price (b : Orderbook) (side : Side) (qty : Int) : Int :=
  let w := fill_walk (opposing_levels b side) qty
  if 0 < w.2 then cppDiv (w.1 * QUANTITY_SCALE) w.2 else 0

/-- Quantity the walk of `estimate_execution_price` manages to fill. -/
def filled_quantity (b : Orderbook) (side : Side) (qty : Int) : Int :=
  (fill_walk (opposing_levels b side) qty).2

/-- Modelled from the spec: the greedy fill list the spec describes for
`estimate_execution_price` — walk the opposing side from the best level
outward, consuming quantity level by level with a partial fill of the
last level touched.  Each entry is `(price, filled at that price)`. -/
def greedy_fills : List PriceLevel → Int → List (Int × Int)
  | [], _ => []
  | l :: ls, remaining =>
    if 0 < remaining then
      (l.price, min remaining l.quantity) ::
        greedy_fills ls (remaining - min remaining l.quantity)
    else []

/-- Total quantity of a list of levels. -/
def levels_liquidity (ls : List PriceLevel) : Int := (ls.map PriceLevel.quantity).sum

-- =============================================================================
-- Association-list model of std::unordered_map
-- =============================================================================

/-- Lookup in an association list (`unordered_map::find`). -/
def lookupKey {κ α : Type} [DecidableEq κ] (k : κ) : List (κ × α) → Option α
  | [] => none
  | (k', v) :: rest => if k' = k then some v else lookupKey k rest

/-- Insert-or-assign (`unordered_map::operator[] = v`). -/
def upsertKey {κ α : Type} [DecidableEq κ] (k : κ) (v : α) :
    List (κ × α) → List (κ × α)
  | [] => [(k, v)]
  | (k', v') :: rest =>
    if k' = k then (k, v) :: rest else (k', v') :: upsertKey k v rest

/-- Erase every binding of a key (`unordered_map::erase`; the map holds
at most one binding per key, so removing all matches is the same). -/
def eraseKey {κ α : Type} [DecidableEq κ] (k : κ) (l : List (κ × α)) :
    List (κ × α) :=
  l.filter (fun p => decide (p.1 ≠ k))

-- =============================================================================
-- Execution engine (execution_engine.hpp, types.hpp)
-- =============================================================================

/-- Order record (types.hpp `Order`), timestamps dropped. -/
structure Order where
  id : Nat
  symbol : String
  price : Int
  stop_price : Int
  quantity : Int
  filled_qty : Int
  side : Side
  type : OrderType
  tif : TimeInForce
  status : OrderStatus
deriving DecidableEq, Repr

/-- Source `Order::remaining`. -/
def Order.remaining (o : Order) : Int := o.quantity - o.filled_qty

/-- Source `Order::is_active`: OPEN or PARTIALLY_FILLED. -/
def Order.is_active (o : Order) : Bool :=
  decide (o.status = OrderStatus.OPEN ∨ o.status = OrderStatus.PARTIALLY_FILLED)

/-- Position record (types.hpp `Position`), timestamps dropped. -/
structure Position where
  symbol : String
  quantity : Int
  avg_entry_price : Int
  unrealized_pnl : Int
  realized_pnl : Int
deriving DecidableEq, Repr

/-- Source `Position::is_flat`. -/
def Position.is_flat (p : Position) : Bool := decide (p.quantity = 0)

/-- Risk configuration (types.hpp `RiskParams`), `double` fields as `ℚ`.
The field defaults are the source's member initialisers. -/
structure RiskParams where
  max_position_size : ℚ := 0.1
  max_drawdown : ℚ := 0.05
  stop_loss_percent : ℚ := 0.02
  take_profit_percent : ℚ := 0.03
  max_open_orders : Int := 10
  max_daily_trades : Int := 100
deriving DecidableEq, Repr

/-- Execution event record (execution_engine.hpp `ExecutionEvent`),
timestamp dropped. -/
structure ExecutionEvent where
  type : EventType
  order_id : Nat
  symbol : String
  price : Int
  quantity : Int
  error : ErrorCode
  message : String
deriving DecidableEq, Repr

/-- Source `ObjectPool<Order, 10000>` capacity used by the engine. -/
def ORDER_POOL_SIZE : Nat := 10000

/-- Engine state (`ExecutionEngine` data members).  The order pool is
tracked by its number of free slots; emitted events are logged in
order of emission. -/
structure EngineState where
  risk_params : RiskParams
  next_order_id : Nat
  equity : Int
  pool_free : Nat
  active_orders : List (Nat × Order)
  positions : List (String × Position)
  orderbooks : List (String × Orderbook)
  events : List ExecutionEvent

/-- Freshly constructed engine (`ExecutionEngine::ExecutionEngine`):
next id 1, equity 1'000'000 * PRICE_SCALE, empty tables, full pool. -/
def init_engine (rp : RiskParams) : EngineState :=
  { risk_params := rp
    next_order_id := 1
    equity := 1000000 * PRICE_SCALE
    pool_free := ORDER_POOL_SIZE
    active_orders := []
    positions := []
    orderbooks := []
    events := [] }

/-- Source `ExecutionEngine::emit_event`: synchronous fan-out, modelled as
appending the event to the log. -/
def emit_event (s : EngineState) (type : EventType) (order_id : Nat)
    (symbol : String) (price quantity : Int) (error : ErrorCode)
    (message : String) : EngineState :=
  { s with
    events := s.events ++
      [{ type := type, order_id := order_id, symbol := symbol, price := price,
         quantity := quantity, error := error, message := message }] }

/-- Source `ExecutionEngine::get_current_price`: mid price of the symbol's
book, or `to_price_micro(1.0)` when no book exists. -/
def get_current_price (s : EngineState) (symbol : String) : Int :=
  match lookupKey symbol s.orderbooks with
  | some b => mid_price b
  | none => PRICE_SCALE

/-- Source `ExecutionEngine::get_execution_price`. -/
def get_execution_price (s : EngineState) (symbol : String) (side : Side)
    (qty : Int) : Int :=
  match lookupKey symbol s.orderbooks with
  | some b => estimate_execution_price b side qty
  | none => PRICE_SCALE

/-- Source `ExecutionEngine::check_position_risk`: project the position
quantity if the order fully fills, value it at the current price, and
compare the equity fraction against `max_position_size`.  The source's
`double` arithmetic is modelled exactly by `ℚ`. -/
def check_position_risk (s : EngineState) (symbol : String) (side : Side)
    (quantity : Int) : Bool :=
  let new_qty : Int :=
    match lookupKey symbol s.positions with
    | some pos =>
      if side = Side.BUY then pos.quantity + quantity else pos.quantity - quantity
    | none => quantity
  let notional : ℚ :=
    from_quantity_nano |new_qty| * from_price_micro (get_current_price s symbol)
  let equity_pct : ℚ := notional / from_price_micro s.equity
  decide (equity_pct ≤ s.risk_params.max_position_size)

/-- Source `ExecutionEngine::check_order_count_risk`. -/
def check_order_count_risk (s : EngineState) : Bool :=
  decide ((s.active_orders.length : Int) < s.risk_params.max_open_orders)

/-- Fresh position created by `update_position` on the first fill
against a symbol: signed fill quantity, entry price the fill price. -/
def opened_position (symbol : String) (side : Side) (qty price : Int) :
    Position :=
  { symbol := symbol
    quantity := if side = Side.BUY then qty else -qty
    avg_entry_price := price
    unrealized_pnl := 0
    realized_pnl := 0 }

/-- Same-direction branch of `update_position` ("Adding to position"):
volume-weighted average entry price recomputed in fixed point, signed
delta applied to the quantity. -/
def position_add (pos : Position) (price delta : Int) : Position :=
  let total_notional :=
    cppDiv (pos.avg_entry_price * |pos.quantity|) QUANTITY_SCALE +
      cppDiv (price * |delta|) QUANTITY_SCALE
  let q' := pos.quantity + delta
  { pos with
    quantity := q'
    avg_entry_price :=
      if q' ≠ 0 then cppDiv (total_notional * QUANTITY_SCALE) |q'|
      else pos.avg_entry_price }

/-- Opposite-direction branch of `update_position` ("Reducing
position"): realize PnL on the closed quantity, signed by the prior
direction, then apply the signed delta to the quantity. -/
def position_reduce (pos : Position) (price delta : Int) : Position :=
  let closed := min |pos.quantity| |delta|
  let pnl := cppDiv ((price - pos.avg_entry_price) * closed) QUANTITY_SCALE
  { pos with
    realized_pnl := pos.realized_pnl + (if 0 < pos.quantity then pnl else -pnl)
    quantity := pos.quantity + delta }

/-- Updated position produced by a fill against an existing position:
the source's branch on fill direction relative to the position. -/
def fill_result (pos : Position) (side : Side) (qty price : Int) : Position :=
  let delta : Int := if side = Side.BUY then qty else -qty
  if (0 ≤ pos.quantity ∧ 0 < delta) ∨ (pos.quantity ≤ 0 ∧ delta < 0) then
    position_add pos price delta
  else
    position_reduce pos price delta

/-- Source `ExecutionEngine::update_position`, invoked only from a fill. -/
def update_position (s : EngineState) (symbol : String) (side : Side)
    (qty price : Int) : EngineState :=
  match lookupKey symbol s.positions with
  | none =>
    emit_event
      { s with
        positions := upsertKey symbol (opened_position symbol side qty price)
          s.positions }
      EventType.POSITION_OPENED 0 symbol price qty ErrorCode.OK "Position opened"
  | some pos =>
    let pos' := fill_result pos side qty price
    if pos'.quantity = 0 then
      emit_event { s with positions := eraseKey symbol s.positions }
        EventType.POSITION_CLOSED 0 symbol price qty ErrorCode.OK "Position closed"
    else
      emit_event { s with positions := upsertKey symbol pos' s.positions }
        EventType.POSITION_UPDATED 0 symbol price qty ErrorCode.OK "Position updated"

/-- Source `ExecutionEngine::simulate_fill`: mark the order filled, update the
position, emit ORDER_FILLED, erase the order from the active table and
return its slot to the pool. -/
def simulate_fill (s : EngineState) (order : Order) (fill_price : Int) :
    EngineState :=
  let s1 := update_position s order.symbol order.side order.quantity fill_price
  let s2 := emit_event s1 EventType.ORDER_FILLED order.id order.symbol fill_price
    order.quantity ErrorCode.OK "Order filled"
  { s2 with
    active_orders := eraseKey order.id s2.active_orders
    pool_free := s2.pool_free + 1 }

/-- Freshly created order record as filled in by `submit_order` before
any fill: PENDING status, nothing filled. -/
def new_order (id : Nat) (symbol : String) (side : Side) (type : OrderType)
    (quantity price stop_price : Int) (tif : TimeInForce) : Order :=
  { id := id, symbol := symbol, price := price, stop_price := stop_price
    quantity := quantity, filled_qty := 0, side := side, type := type
    tif := tif, status := OrderStatus.PENDING }

/-- Engine state right after `submit_order` passes both risk gates and
the pool allocation: id counter advanced, pool slot taken, order
recorded in the active table, ORDER_SUBMITTED emitted. -/
def submitted_state (s : EngineState) (symbol : String) (side : Side)
    (type : OrderType) (quantity price stop_price : Int) (tif : TimeInForce) :
    EngineState :=
  emit_event
    { s with
      next_order_id := s.next_order_id + 1
      pool_free := s.pool_free - 1
      active_orders := upsertKey s.next_order_id
        (new_order s.next_order_id symbol side type quantity price stop_price tif)
        s.active_orders }
    EventType.ORDER_SUBMITTED s.next_order_id symbol price quantity
    ErrorCode.OK "Order submitted"

/-- Source `ExecutionEngine::submit_order`.  Returns the assigned id (0 on any
rejection path) together with the successor state. -/
def submit_order (s : EngineState) (symbol : String) (side : Side)
    (type : OrderType) (quantity : Int) (price : Int := 0)
    (stop_price : Int := 0) (tif : TimeInForce := TimeInForce.GTC) :
    Nat × EngineState :=
  if check_position_risk s symbol side quantity = false then
    (0, emit_event s EventType.ORDER_REJECTED 0 symbol 0 quantity
      ErrorCode.RISK_LIMIT_EXCEEDED "Position size limit exceeded")
  else if check_order_count_risk s = false then
    (0, emit_event s EventType.ORDER_REJECTED 0 symbol 0 quantity
      ErrorCode.RISK_LIMIT_EXCEEDED "Max open orders exceeded")
  else if s.pool_free = 0 then
    (0, emit_event s EventType.ORDER_REJECTED 0 symbol 0 quantity
      ErrorCode.INTERNAL_ERROR "Order pool exhausted")
  else
    let id := s.next_order_id
    let order := new_order id symbol side type quantity price stop_price tif
    let s2 := submitted_state s symbol side type quantity price stop_price tif
    if type = OrderType.MARKET then
      (id, simulate_fill s2 order
        (if price ≠ 0 then price else get_execution_price s2 symbol side quantity))
    else
      (id, s2)

/-- Source `ExecutionEngine::cancel_order`: succeeds only for an id present in
the active table whose order is active; then transitions to CANCELLED,
emits ORDER_CANCELLED, erases the order and returns the pool slot. -/
def cancel_order (s : EngineState) (id : Nat) : Bool × EngineState :=
  match lookupKey id s.active_orders with
  | none => (false, s)
  | some order =>
    if order.is_active = false then (false, s)
    else
      let s1 := emit_event s EventType.ORDER_CANCELLED id order.symbol
        order.price order.remaining ErrorCode.OK "Order cancelled"
      (true,
        { s1 with
          active_orders := eraseKey id s1.active_orders
          pool_free := s1.pool_free + 1 })

/-- Source `ExecutionEngine::close_position`: false if no position or flat;
otherwise submit a MARKET order on the opposite side for the full
absolute quantity. -/
def close_position (s : EngineState) (symbol : String) : Bool × EngineState :=
  match lookupKey symbol s.positions with
  | none => (false, s)
  | some pos =>
    if pos.is_flat then (false, s)
    else
      let close_side := if 0 < pos.quantity then Side.SELL else Side.BUY
      let qty := |pos.quantity|
      (true, (submit_order s symbol close_side OrderType.MARKET qty 0 0 TimeInForce.GTC).2)

/-- Engine operations for whole-run invariants. -/
inductive EngineOp
  | submit (symbol : String) (side : Side) (type : OrderType)
      (quantity price stop_price : Int) (tif : TimeInForce)
  | cancel (id : Nat)
  | close (symbol : String)

/-- One engine call. -/
def engine_step (s : EngineState) : EngineOp → EngineState
  | EngineOp.submit symbol side type quantity price stop_price tif =>
    (submit_order s symbol side type quantity price stop_price tif).2
  | EngineOp.cancel id => (cancel_order s id).2
  | EngineOp.close symbol => (close_position s symbol).2

/-- A sequence of engine calls. -/
def engine_run (s : EngineState) (ops : List EngineOp) : EngineState :=
  ops.foldl engine_step s

/-- Flat-position freedom of the live position table (spec §3
invariant for `Position`). -/
def no_flat_positions (s : EngineState) : Prop :=
  ∀ e ∈ s.positions, e.2.quantity ≠ 0

/-- An operation whose submitted quantity (if any) is nonzero. -/
def op_has_nonzero_qty : EngineOp → Prop
  | EngineOp.submit _ _ _ quantity _ _ _ => quantity ≠ 0
  | EngineOp.cancel _ => True
  | EngineOp.close _ => True

instance : DecidablePred op_has_nonzero_qty := fun op => by
  cases op <;> simp [op_has_nonzero_qty] <;> infer_instance

-- =============================================================================
-- SPSC queue (lock_free_queue.hpp `SPSCQueue`), sequential model
-- =============================================================================

/-- SPSC ring buffer state: producer index `head`, consumer index
`tail` (both stored already masked, as in the source), and the backing
array as an index function.  `C` is the compile-time `Capacity`. -/
structure SPSCQueue (T : Type) (C : Nat) where
  head : Nat
  tail : Nat
  buffer : Nat → T

/-- Source `SPSCQueue::SPSCQueue`: both indices 0, buffer default-initialised. -/
def spsc_init (T : Type) [Inhabited T] (C : Nat) : SPSCQueue T C :=
  { head := 0, tail := 0, buffer := fun _ => default }

/-- Source `SPSCQueue::push`: fails (without writing) when advancing `head`
would collide with `tail`; otherwise writes the slot at `head` and
publishes the new head. -/
def spsc_push {T : Type} {C : Nat} (q : SPSCQueue T C) (v : T) :
    Bool × SPSCQueue T C :=
  if (q.head + 1) &&& (C - 1) = q.tail then (false, q)
  else
    (true,
      { q with
        buffer := fun i => if i = q.head then v else q.buffer i
        head := (q.head + 1) &&& (C - 1) })

/-- Source `SPSCQueue::pop`: empty when `tail = head`; otherwise reads the
slot at `tail` and advances `tail`. -/
def spsc_pop {T : Type} {C : Nat} (q : SPSCQueue T C) :
    Option T × SPSCQueue T C :=
  if q.tail = q.head then (none, q)
  else (some (q.buffer q.tail), { q with tail := (q.tail + 1) &&& (C - 1) })

/-- Source `SPSCQueue::capacity`: one slot is reserved. -/
def spsc_capacity (C : Nat) : Nat := C - 1

/-- Number of unread elements held by the queue (abstraction used to
state FIFO refinement; equals the source's `size()` for in-range
indices). -/
def spsc_count {T : Type} {C : Nat} (q : SPSCQueue T C) : Nat :=
  (q.head + C - q.tail) % C

/-- Abstraction function: the unread elements from `tail` to `head`
in push order. -/
def spsc_contents {T : Type} {C : Nat} (q : SPSCQueue T C) : List T :=
  (List.range (spsc_count q)).map (fun i => q.buffer ((q.tail + i) % C))

/-- Representation invariant: both masked indices are in range. -/
def spsc_inv {T : Type} {C : Nat} (q : SPSCQueue T C) : Prop :=
  q.head < C ∧ q.tail < C

-- =============================================================================
-- Object pool (memory_pool.hpp `ObjectPool`), sequential model
-- =============================================================================

/-- Object pool state: the free list holds the indices of free nodes
(`free_list_` chains `nodes_[i]`), `allocated` mirrors `allocated_`. -/
structure ObjectPool where
  free_list : List Nat
  allocated : Nat
deriving DecidableEq, Repr

/-- Source `ObjectPool::ObjectPool`: nodes `0, 1, ..., N-1` chained in order. -/
def pool_init (N : Nat) : ObjectPool :=
  { free_list := List.range N, allocated := 0 }

/-- Source `ObjectPool::allocate`: pop the free-list head, or null when
exhausted. -/
def pool_allocate (p : ObjectPool) : Option Nat × ObjectPool :=
  match p.free_list with
  | [] => (none, p)
  | n :: rest => (some n, { free_list := rest, allocated := p.allocated + 1 })

/-- Source `ObjectPool::deallocate`: push the slot back onto the free list. -/
def pool_deallocate (p : ObjectPool) (n : Nat) : ObjectPool :=
  { free_list := n :: p.free_list, allocated := p.allocated - 1 }

/-- Iterate `allocate` `k` times, collecting the results. -/
def pool_allocs : ObjectPool → Nat → List (Option Nat) × ObjectPool
  | p, 0 => ([], p)
  | p, k + 1 =>
    let r := pool_allocate p
    let rest := pool_allocs r.2 k
    (r.1 :: rest.1, rest.2)

/-- Accounting invariant: live allocations plus free slots make up the
whole pool (holds as long as the caller respects the deallocation
contract). -/
def pool_wf (N : Nat) (p : ObjectPool) : Prop :=
  p.allocated + p.free_list.length = N

/-- Projected position quantity as worded by the spec for risk gate 1:
the existing signed quantity plus the signed order quantity (positive
for BUY, negative for SELL).  Stated from the spec's words to compare
against `check_position_risk`. -/
def projected_quantity (s : EngineState) (symbol : String) (side : Side)
    (quantity : Int) : Int :=
  (match lookupKey symbol s.positions with
   | some pos => pos.quantity
   | none => 0) +
    (if side = Side.BUY then quantity else -quantity)

/-- Projected notional as a fraction of equity, as worded by the spec
for risk gate 1: the projected quantity valued at the book's mid price
for the symbol (or the default unit price when no book exists),
divided by equity. -/
def projected_fraction (s : EngineState) (symbol : String) (side : Side)
    (quantity : Int) : ℚ :=
  (from_quantity_nano |projected_quantity s symbol side quantity| *
    from_price_micro (get_current_price s symbol)) / from_price_micro s.equity

-- =============================================================================
-- Concrete fixtures used by closed theorems
-- =============================================================================

/-- Book with asks [(10.0, qty 5), (11.0, qty 5)] in fixed point (the
spec §8 execution-price fixture). -/
def example_book : Orderbook :=
  { bids := fun _ => { price := 0, quantity := 0, order_count := 0 }
    asks := fun i =>
      if i = 0 then { price := 10 * PRICE_SCALE, quantity := 5 * QUANTITY_SCALE, order_count := 1 }
      else if i = 1 then { price := 11 * PRICE_SCALE, quantity := 5 * QUANTITY_SCALE, order_count := 1 }
      else { price := 0, quantity := 0, order_count := 0 }
    bid_count := 0
    ask_count := 2
    sequence := 1
    timestamp := 1 }

/-- Book with a single ask of price 1 micro-unit and quantity 1
nano-unit: liquidity is available, yet the truncated weighted sum is
0. -/
def tiny_book : Orderbook :=
  { bids := fun _ => { price := 0, quantity := 0, order_count := 0 }
    asks := fun i =>
      if i = 0 then { price := 1, quantity := 1, order_count := 1 }
      else { price := 0, quantity := 0, order_count := 0 }
    bid_count := 0
    ask_count := 1
    sequence := 1
    timestamp := 1 }

-- =============================================================================
-- Theorems
-- =============================================================================

section PoolLemmas

/-- Iterating `allocate` `k` times on a pool with at least `k` free
slots hands out the first `k` free indices in list order. -/
theorem pool_allocs_spec (k : Nat) (p : ObjectPool)
    (h : k ≤ p.free_list.length) :
    (pool_allocs p k).1 = (p.free_list.take k).map some ∧
      (pool_allocs p k).2 =
        { free_list := p.free_list.drop k, allocated := p.allocated + k } := by
  induction k generalizing p with
  | zero => simp [pool_allocs]
  | succ k ih =>
    match hfl : p.free_list with
    | [] => simp [hfl] at h
    | n :: rest =>
      have hlen : k ≤ rest.length := by
        have := h
        rw [hfl] at this
        simpa using this
      have := ih { free_list := rest, allocated := p.allocated + 1 } hlen
      simp [pool_allocs, pool_allocate, hfl, this.1, this.2, Nat.add_assoc,
        Nat.add_comm 1 k]

end PoolLemmas

/-- Claim C7: for an ObjectPool of size N (modelled sequentially), the
first N allocate calls each succeed, the (N+1)th returns null, after
one deallocate exactly one more allocate succeeds before failing
again, and under the accounting invariant the number of live
allocations never exceeds N (allocate preserves the invariant, and so
does deallocate of a previously allocated object). -/
theorem C7_pool_exhaustion (N : Nat) :
    (∀ r ∈ (pool_allocs (pool_init N) N).1, r.isSome) ∧
      (pool_allocs (pool_init N) N).1.length = N ∧
      (pool_allocate (pool_allocs (pool_init N) N).2).1 = none ∧
      (∀ j : Nat,
        (pool_allocate (pool_deallocate (pool_allocs (pool_init N) N).2 j)).1 =
          some j ∧
        (pool_allocate
          (pool_allocate
            (pool_deallocate (pool_allocs (pool_init N) N).2 j)).2).1 = none) ∧
      (∀ p : ObjectPool, pool_wf N p → p.allocated ≤ N) ∧
      (∀ p : ObjectPool, pool_wf N p → pool_wf N (pool_allocate p).2) ∧
      (∀ p : ObjectPool, pool_wf N p → 1 ≤ p.allocated → ∀ j : Nat,
        pool_wf N (pool_deallocate p j)) := by
  have hspec := pool_allocs_spec N (pool_init N) (by simp [pool_init])
  have hstate : (pool_allocs (pool_init N) N).2 =
      { free_list := [], allocated := N } := by
    rw [hspec.2]
    simp [pool_init]
  refine ⟨?_, ?_, ?_, ?_, ?_, ?_, ?_⟩
  · intro r hr
    rw [hspec.1] at hr
    rcases List.mem_map.mp hr with ⟨x, _, rfl⟩
    simp
  · rw [hspec.1]
    simp [pool_init]
  · rw [hstate]
    simp [pool_allocate]
  · intro j
    rw [hstate]
    simp [pool_deallocate, pool_allocate]
  · intro p hp
    have : p.allocated + p.free_list.length = N := hp
    omega
  · intro p hp
    match hfl : p.free_list with
    | [] => simpa [pool_allocate, hfl] using hp
    | n :: rest =>
      have : p.allocated + (n :: rest).length = N := by rw [← hfl]; exact hp
      simp only [pool_allocate, hfl]
      simp only [pool_wf] at *
      simp at this ⊢
      omega
  · intro p hp hge j
    simp only [pool_wf, pool_deallocate] at *
    simp
    omega

/-- Claim C7 witness: concrete instance at N = 2. -/
theorem C7_witness :
    pool_wf 2 { free_list := [0], allocated := 1 } ∧
      ({ free_list := [0], allocated := 1 } : ObjectPool).allocated ≤ 2 ∧
      (pool_allocate (pool_allocs (pool_init 2) 2).2).1 = none := by
  refine ⟨by simp [pool_wf], ?_, ?_⟩
  · exact (C7_pool_exhaustion 2).2.2.2.2.1 { free_list := [0], allocated := 1 }
      (by simp [pool_wf])
  · exact (C7_pool_exhaustion 2).2.2.1

/-- Claim C8: with non-negative per-level quantities, `imbalance`
equals (bid − ask) / (bid + ask) over the first `levels` levels, lies
in [−1, 1], and is 0 when total liquidity is 0. -/
theorem C8_imbalance_bounds (b : Orderbook) (levels : Nat)
    (hb : ∀ i : Nat, 0 ≤ (b.bids i).quantity)
    (ha : ∀ i : Nat, 0 ≤ (b.asks i).quantity) :
    imbalance b levels =
      (if total_bid_liquidity b levels + total_ask_liquidity b levels = 0 then 0
       else ((total_bid_liquidity b levels - total_ask_liquidity b levels : Int) : ℚ) /
         ((total_bid_liquidity b levels + total_ask_liquidity b levels : Int) : ℚ)) ∧
      (-1 : ℚ) ≤ imbalance b levels ∧ imbalance b levels ≤ 1 ∧
      (total_bid_liquidity b levels + total_ask_liquidity b levels = 0 →
        imbalance b levels = 0) := by
  have hbl : 0 ≤ total_bid_liquidity b levels := by
    apply List.sum_nonneg
    intro x hx
    rcases List.mem_map.mp hx with ⟨i, _, rfl⟩
    exact hb i
  have hal : 0 ≤ total_ask_liquidity b levels := by
    apply List.sum_nonneg
    intro x hx
    rcases List.mem_map.mp hx with ⟨i, _, rfl⟩
    exact ha i
  set bl := total_bid_liquidity b levels with hbldef
  set al := total_ask_liquidity b levels with haldef
  have hdef : imbalance b levels =
      (if bl + al = 0 then 0 else ((bl - al : Int) : ℚ) / ((bl + al : Int) : ℚ)) := by
    simp only [imbalance, hbldef, haldef]
  refine ⟨hdef, ?_, ?_, ?_⟩
  · rw [hdef]
    split
    · norm_num
    · rename_i hne
      have hpos : (0 : ℚ) < ((bl + al : Int) : ℚ) := by
        have : 0 < bl + al := lt_of_le_of_ne (by omega) (Ne.symm hne)
        exact_mod_cast this
      rw [le_div_iff₀ hpos]
      push_cast
      have : (0 : ℚ) ≤ (bl : ℚ) := by exact_mod_cast hbl
      have : (0 : ℚ) ≤ (al : ℚ) := by exact_mod_cast hal
      linarith [show (0 : ℚ) ≤ (bl : ℚ) from by exact_mod_cast hbl]
  · rw [hdef]
    split
    · norm_num
    · rename_i hne
      have hpos : (0 : ℚ) < ((bl + al : Int) : ℚ) := by
        have : 0 < bl + al := lt_of_le_of_ne (by omega) (Ne.symm hne)
        exact_mod_cast this
      rw [div_le_one hpos]
      push_cast
      have : (0 : ℚ) ≤ (al : ℚ) := by exact_mod_cast hal
      linarith
  · intro h
    rw [hdef, if_pos h]

/-- Claim C8 witness: concrete instance on the example book with 5
levels. -/
theorem C8_witness :
    (∀ i : Nat, 0 ≤ (example_book.bids i).quantity) ∧
      (-1 : ℚ) ≤ imbalance example_book 5 ∧ imbalance example_book 5 ≤ 1 := by
  have hb : ∀ i : Nat, 0 ≤ (example_book.bids i).quantity := by
    intro i
    simp [example_book]
  have ha : ∀ i : Nat, 0 ≤ (example_book.asks i).quantity := by
    intro i
    simp only [example_book]
    split
    · norm_num [QUANTITY_SCALE]
    · split
      · norm_num [QUANTITY_SCALE]
      · norm_num
  have h := C8_imbalance_bounds example_book 5 hb ha
  exact ⟨hb, h.2.1, h.2.2.1⟩

section MapLemmas

variable {κ α : Type} [DecidableEq κ]

/-- Looking up a key just upserted yields the new value. -/
theorem lookup_upsert (k : κ) (v : α) (l : List (κ × α)) :
    lookupKey k (upsertKey k v l) = some v := by
  induction l with
  | nil => simp [upsertKey, lookupKey]
  | cons p rest ih =>
    by_cases h : p.1 = k
    · simp [upsertKey, lookupKey, h]
    · simpa [upsertKey, lookupKey, h] using ih

/-- Looking up a key just erased yields nothing. -/
theorem lookup_erase (k : κ) (l : List (κ × α)) :
    lookupKey k (eraseKey k l) = none := by
  induction l with
  | nil => simp [eraseKey, lookupKey]
  | cons p rest ih =>
    by_cases h : p.1 = k
    · simpa [eraseKey, lookupKey, h] using ih
    · simpa [eraseKey, lookupKey, h] using ih

end MapLemmas

/-- Sum of a list of non-negative level quantities is non-negative. -/
theorem levels_liquidity_nonneg (ls : List PriceLevel)
    (h : ∀ l ∈ ls, 0 ≤ l.quantity) : 0 ≤ levels_liquidity ls := by
  apply List.sum_nonneg
  intro x hx
  rcases List.mem_map.mp hx with ⟨l, hl, rfl⟩
  exact h l hl

/-- The source loop of `estimate_execution_price` computes exactly the
truncated notional sum and the fill sum of the greedy fill list the
spec describes. -/
theorem fill_walk_eq_greedy (ls : List PriceLevel) (q : Int) :
    fill_walk ls q =
      (((greedy_fills ls q).map (fun pf => cppDiv (pf.1 * pf.2) QUANTITY_SCALE)).sum,
        ((greedy_fills ls q).map Prod.snd).sum) := by
  induction ls generalizing q with
  | nil => simp [fill_walk, greedy_fills]
  | cons l ls ih =>
    by_cases h : 0 < q
    · simp [fill_walk, greedy_fills, h, ih]
    · simp [fill_walk, greedy_fills, h]

/-- With non-negative level quantities, the walk fills exactly
`min qty (total opposing liquidity)`. -/
theorem fill_walk_filled_min (ls : List PriceLevel) (q : Int)
    (hls : ∀ l ∈ ls, 0 ≤ l.quantity) (hq : 0 ≤ q) :
    (fill_walk ls q).2 = min q (levels_liquidity ls) := by
  induction ls generalizing q with
  | nil =>
    simp only [fill_walk, levels_liquidity, List.map_nil, List.sum_nil]
    omega
  | cons l ls ih =>
    have hl : 0 ≤ l.quantity := hls l (by simp)
    have hrest : ∀ x ∈ ls, 0 ≤ x.quantity := fun x hx => hls x (by simp [hx])
    have hliq : 0 ≤ levels_liquidity ls := levels_liquidity_nonneg ls hrest
    have hcons : levels_liquidity (l :: ls) = l.quantity + levels_liquidity ls := by
      simp [levels_liquidity]
    by_cases h : 0 < q
    · have hfill : (0 : Int) ≤ q - min q l.quantity := by omega
      have := ih (q - min q l.quantity) hrest hfill
      simp only [fill_walk, if_pos h, this, hcons]
      omega
    · have hq0 : q = 0 := by omega
      subst hq0
      simp only [fill_walk, if_neg h, hcons]
      omega

/-- Claim C5 counterexample: on a book whose single ask has price 1
micro-unit and quantity 1 nano-unit, a BUY of quantity 1 fills 1
nano-unit of available liquidity, yet `estimate_execution_price`
returns 0 — so "returns 0 exactly when no liquidity was available to
fill any of the requested quantity" is false on this state. -/
theorem C5_counterexample :
    estimate_execution_price tiny_book Side.BUY 1 = 0 ∧
      filled_quantity tiny_book Side.BUY 1 = 1 ∧
      total_ask_liquidity tiny_book MAX_ORDERBOOK_LEVELS = 1 := by
  decide

/-- Claim C5 (amended): `estimate_execution_price` walks the opposing
side from the best level outward, consuming quantity level by level
with a partial fill of the last level touched (with non-negative level
quantities it fills exactly `min qty liquidity`), and returns the
quantity-weighted average of the greedy fills computed in fixed point
with truncating division; it returns 0 whenever nothing was filled.
In particular, with asks [(10.0, 5), (11.0, 5)],
`estimate_execution_price(BUY, 8)` is 10.375. -/
theorem C5_execution_price (b : Orderbook) (side : Side) (qty : Int) :
    fill_walk (opposing_levels b side) qty =
      (((greedy_fills (opposing_levels b side) qty).map
          (fun pf => cppDiv (pf.1 * pf.2) QUANTITY_SCALE)).sum,
        ((greedy_fills (opposing_levels b side) qty).map Prod.snd).sum) ∧
      estimate_execution_price b side qty =
        (if 0 < ((greedy_fills (opposing_levels b side) qty).map Prod.snd).sum
         then cppDiv
           ((((greedy_fills (opposing_levels b side) qty).map
               (fun pf => cppDiv (pf.1 * pf.2) QUANTITY_SCALE)).sum) * QUANTITY_SCALE)
           (((greedy_fills (opposing_levels b side) qty).map Prod.snd).sum)
         else 0) ∧
      ((∀ l ∈ opposing_levels b side, 0 ≤ l.quantity) → 0 ≤ qty →
        filled_quantity b side qty =
          min qty (levels_liquidity (opposing_levels b side))) ∧
      (filled_quantity b side qty = 0 → estimate_execution_price b side qty = 0) ∧
      estimate_execution_price example_book Side.BUY (8 * QUANTITY_SCALE) =
        10375000 := by
  have hg := fill_walk_eq_greedy (opposing_levels b side) qty
  refine ⟨hg, ?_, ?_, ?_, by decide⟩
  · rw [estimate_execution_price, hg]
  · intro hnn hq
    exact fill_walk_filled_min (opposing_levels b side) qty hnn hq
  · intro h0
    rw [estimate_execution_price]
    rw [filled_quantity] at h0
    rw [h0]
    simp

/-- Claim C5 witness: the fill characterisation instantiated on the
example book. -/
theorem C5_witness :
    (∀ l ∈ opposing_levels example_book Side.BUY, 0 ≤ l.quantity) ∧
      (0 : Int) ≤ 8 * QUANTITY_SCALE ∧
      filled_quantity example_book Side.BUY (8 * QUANTITY_SCALE) =
        min (8 * QUANTITY_SCALE)
          (levels_liquidity (opposing_levels example_book Side.BUY)) :=
  ⟨by decide, by decide,
    (C5_execution_price example_book Side.BUY (8 * QUANTITY_SCALE)).2.2.1
      (by decide) (by decide)⟩

/-- Orders cannot be cancelled when the looked-up order is not active
(status PENDING in particular): `cancel_order` returns false and the
state is untouched. -/
theorem cancel_not_active (s : EngineState) (id : Nat)
    (h : (lookupKey id s.active_orders).map Order.status =
      some OrderStatus.PENDING) :
    cancel_order s id = (false, s) := by
  rcases hl : lookupKey id s.active_orders with _ | o
  · rw [cancel_order, hl]
  · rw [hl] at h
    simp only [Option.map_some', Option.some.injEq] at h
    rw [cancel_order, hl]
    have hact : o.is_active = false := by simp [Order.is_active, h]
    simp [hact]

/-- Cancelling an unknown id returns false and leaves the state
untouched. -/
theorem cancel_missing (s : EngineState) (id : Nat)
    (h : lookupKey id s.active_orders = none) :
    cancel_order s id = (false, s) := by
  rw [cancel_order, h]

/-- When the position-size gate fails, `submit_order` rejects with
RISK_LIMIT_EXCEEDED and id 0. -/
theorem submit_reject_risk (s : EngineState) (symbol : String) (side : Side)
    (type : OrderType) (quantity price stop_price : Int) (tif : TimeInForce)
    (h : check_position_risk s symbol side quantity = false) :
    submit_order s symbol side type quantity price stop_price tif =
      (0, emit_event s EventType.ORDER_REJECTED 0 symbol 0 quantity
        ErrorCode.RISK_LIMIT_EXCEEDED "Position size limit exceeded") := by
  rw [submit_order, if_pos h]

/-- When both risk gates and the pool allocation succeed,
`submit_order` on a non-market type returns the fresh id and the
submitted state (the order rests). -/
theorem submit_accept_resting (s : EngineState) (symbol : String) (side : Side)
    (type : OrderType) (quantity price stop_price : Int) (tif : TimeInForce)
    (h1 : check_position_risk s symbol side quantity = true)
    (h2 : check_order_count_risk s = true)
    (h3 : s.pool_free ≠ 0) (htype : type ≠ OrderType.MARKET) :
    submit_order s symbol side type quantity price stop_price tif =
      (s.next_order_id,
        submitted_state s symbol side type quantity price stop_price tif) := by
  rw [submit_order, if_neg (by simp [h1]), if_neg (by simp [h2]), if_neg h3]
  have hm : (type = OrderType.MARKET) = False := by simp [htype]
  simp only [hm, if_false]

/-- When both risk gates and the pool allocation succeed, a MARKET
`submit_order` returns the fresh id and the state after the simulated
immediate fill. -/
theorem submit_accept_market (s : EngineState) (symbol : String) (side : Side)
    (quantity price stop_price : Int) (tif : TimeInForce)
    (h1 : check_position_risk s symbol side quantity = true)
    (h2 : check_order_count_risk s = true)
    (h3 : s.pool_free ≠ 0) :
    submit_order s symbol side OrderType.MARKET quantity price stop_price tif =
      (s.next_order_id,
        simulate_fill
          (submitted_state s symbol side OrderType.MARKET quantity price
            stop_price tif)
          (new_order s.next_order_id symbol side OrderType.MARKET quantity
            price stop_price tif)
          (if price ≠ 0 then price
           else get_execution_price
             (submitted_state s symbol side OrderType.MARKET quantity price
               stop_price tif) symbol side quantity)) := by
  rw [submit_order, if_neg (by simp [h1]), if_neg (by simp [h2]), if_neg h3]
  rfl

/-- The submitted state holds the fresh order under the fresh id. -/
theorem submitted_state_lookup (s : EngineState) (symbol : String)
    (side : Side) (type : OrderType) (quantity price stop_price : Int)
    (tif : TimeInForce) :
    lookupKey s.next_order_id
        (submitted_state s symbol side type quantity price stop_price tif).active_orders =
      some (new_order s.next_order_id symbol side type quantity price
        stop_price tif) := by
  simp only [submitted_state, emit_event]
  exact lookup_upsert ..

/-- After `simulate_fill`, the filled order is gone from the active
table. -/
theorem simulate_fill_lookup (s : EngineState) (o : Order) (p : Int) :
    lookupKey o.id (simulate_fill s o p).active_orders = none := by
  simp only [simulate_fill]
  exact lookup_erase ..

set_option maxRecDepth 4000 in
/-- Truncating division casts to exact rational division when the
divisor divides the dividend. -/
theorem tdiv_exact_cast (a b : Int) (hb : b ≠ 0) (h : b ∣ a) :
    ((Int.tdiv a b : Int) : ℚ) = (a : ℚ) / (b : ℚ) := by
  obtain ⟨c, rfl⟩ := h
  rw [Int.mul_tdiv_cancel_left _ hb]
  have hbq : (b : ℚ) ≠ 0 := Int.cast_ne_zero.mpr hb
  push_cast
  field_simp

/-- A fill against an existing position updates the live table with
`fill_result` (and keeps it there) whenever the resulting quantity is
nonzero. -/
theorem update_position_existing (s : EngineState) (symbol : String)
    (side : Side) (qty price : Int) (pos : Position)
    (hpos : lookupKey symbol s.positions = some pos)
    (hnz : (fill_result pos side qty price).quantity ≠ 0) :
    update_position s symbol side qty price =
      emit_event
        { s with
          positions := upsertKey symbol (fill_result pos side qty price)
            s.positions }
        EventType.POSITION_UPDATED 0 symbol price qty ErrorCode.OK
        "Position updated" := by
  rw [update_position, hpos]
  simp [hnz]

/-- A fill against a symbol with no existing position records the
freshly opened position. -/
theorem update_position_new (s : EngineState) (symbol : String) (side : Side)
    (qty price : Int) (hpos : lookupKey symbol s.positions = none) :
    update_position s symbol side qty price =
      emit_event
        { s with
          positions := upsertKey symbol (opened_position symbol side qty price)
            s.positions }
        EventType.POSITION_OPENED 0 symbol price qty ErrorCode.OK
        "Position opened" := by
  rw [update_position, hpos]

/-- Claim C1 counterexample: on a fresh engine, submitting a LIMIT
order succeeds (id 1), but the resting order's status is PENDING — not
OPEN as claimed — and `cancel_order` on it returns false (PENDING is
not active) instead of true, leaving the active table unchanged. -/
theorem C1_counterexample :
    (submit_order (init_engine {}) "ETH" Side.BUY OrderType.LIMIT
        (1 * QUANTITY_SCALE) (100 * PRICE_SCALE) 0 TimeInForce.GTC).1 = 1 ∧
      (lookupKey 1 (submit_order (init_engine {}) "ETH" Side.BUY OrderType.LIMIT
          (1 * QUANTITY_SCALE) (100 * PRICE_SCALE) 0 TimeInForce.GTC).2.active_orders).map
        Order.status ≠ some OrderStatus.OPEN ∧
      (lookupKey 1 (submit_order (init_engine {}) "ETH" Side.BUY OrderType.LIMIT
          (1 * QUANTITY_SCALE) (100 * PRICE_SCALE) 0 TimeInForce.GTC).2.active_orders).map
        Order.status = some OrderStatus.PENDING ∧
      (cancel_order (submit_order (init_engine {}) "ETH" Side.BUY OrderType.LIMIT
          (1 * QUANTITY_SCALE) (100 * PRICE_SCALE) 0 TimeInForce.GTC).2 1).1 = false ∧
      (cancel_order (submit_order (init_engine {}) "ETH" Side.BUY OrderType.LIMIT
          (1 * QUANTITY_SCALE) (100 * PRICE_SCALE) 0 TimeInForce.GTC).2 1).2.active_orders =
        (submit_order (init_engine {}) "ETH" Side.BUY OrderType.LIMIT
          (1 * QUANTITY_SCALE) (100 * PRICE_SCALE) 0 TimeInForce.GTC).2.active_orders := by
  have hpend : (lookupKey 1 (submit_order (init_engine {}) "ETH" Side.BUY
      OrderType.LIMIT (1 * QUANTITY_SCALE) (100 * PRICE_SCALE) 0
      TimeInForce.GTC).2.active_orders).map Order.status =
      some OrderStatus.PENDING := by
    with_unfolding_all decide
  have hcancel := cancel_not_active (submit_order (init_engine {}) "ETH"
    Side.BUY OrderType.LIMIT (1 * QUANTITY_SCALE) (100 * PRICE_SCALE) 0
    TimeInForce.GTC).2 1 hpend
  refine ⟨by with_unfolding_all decide, by with_unfolding_all decide, hpend,
    ?_, ?_⟩
  · rw [hcancel]
  · rw [hcancel]

/-- Claim C1 (amended): after a successful submit of a LIMIT order the
order rests in the active table in PENDING status, and `cancel_order`
on its id returns false (PENDING is not active) and leaves the state
unchanged; after a successful MARKET submit the order was filled and
removed, so `cancel_order` on its id also returns false. -/
theorem C1_rest_and_cancel (s : EngineState) (symbol : String) (side : Side)
    (quantity price stop_price : Int) (tif : TimeInForce) :
    (∀ id s',
      submit_order s symbol side OrderType.LIMIT quantity price stop_price tif =
        (id, s') → id ≠ 0 →
      (lookupKey id s'.active_orders).map Order.status =
          some OrderStatus.PENDING ∧
        cancel_order s' id = (false, s')) ∧
    (∀ id s',
      submit_order s symbol side OrderType.MARKET quantity price stop_price tif =
        (id, s') → id ≠ 0 →
      lookupKey id s'.active_orders = none ∧
        cancel_order s' id = (false, s')) := by
  have hguards : ∀ type : OrderType, ∀ id : Nat, ∀ s' : EngineState,
      submit_order s symbol side type quantity price stop_price tif = (id, s') →
      id ≠ 0 →
      check_position_risk s symbol side quantity = true ∧
        check_order_count_risk s = true ∧ s.pool_free ≠ 0 := by
    intro type id s' heq hne
    rw [submit_order] at heq
    by_cases hb1 : check_position_risk s symbol side quantity = false
    · rw [if_pos hb1] at heq
      exact absurd (congrArg Prod.fst heq).symm hne
    by_cases hb2 : check_order_count_risk s = false
    · rw [if_neg hb1, if_pos hb2] at heq
      exact absurd (congrArg Prod.fst heq).symm hne
    by_cases hb3 : s.pool_free = 0
    · rw [if_neg hb1, if_neg hb2, if_pos hb3] at heq
      exact absurd (congrArg Prod.fst heq).symm hne
    exact ⟨Bool.not_eq_false _ ▸ hb1, Bool.not_eq_false _ ▸ hb2, hb3⟩
  constructor
  · intro id s' heq hne
    obtain ⟨h1, h2, h3⟩ := hguards OrderType.LIMIT id s' heq hne
    rw [submit_accept_resting s symbol side OrderType.LIMIT quantity price
      stop_price tif h1 h2 h3 (by simp)] at heq
    obtain ⟨rfl, rfl⟩ := Prod.mk.injEq .. ▸ heq
    have hpend : (lookupKey s.next_order_id
        (submitted_state s symbol side OrderType.LIMIT quantity price
          stop_price tif).active_orders).map Order.status =
        some OrderStatus.PENDING := by
      rw [submitted_state_lookup]
      rfl
    exact ⟨hpend, cancel_not_active _ _ hpend⟩
  · intro id s' heq hne
    obtain ⟨h1, h2, h3⟩ := hguards OrderType.MARKET id s' heq hne
    rw [submit_accept_market s symbol side quantity price stop_price tif
      h1 h2 h3] at heq
    obtain ⟨rfl, rfl⟩ := Prod.mk.injEq .. ▸ heq
    have hnone := simulate_fill_lookup
      (submitted_state s symbol side OrderType.MARKET quantity price
        stop_price tif)
      (new_order s.next_order_id symbol side OrderType.MARKET quantity
        price stop_price tif)
      (if price ≠ 0 then price
       else get_execution_price
         (submitted_state s symbol side OrderType.MARKET quantity price
           stop_price tif) symbol side quantity)
    rw [show (new_order s.next_order_id symbol side OrderType.MARKET quantity
      price stop_price tif).id = s.next_order_id from rfl] at hnone
    exact ⟨hnone, cancel_missing _ _ hnone⟩

/-- Claim C1 witness: the amended statement instantiated on a fresh
engine with a small limit order. -/
theorem C1_witness :
    (submit_order (init_engine {}) "ETH" Side.BUY OrderType.LIMIT
        (1 * QUANTITY_SCALE) (100 * PRICE_SCALE) 0 TimeInForce.GTC).1 ≠ 0 ∧
      cancel_order (submit_order (init_engine {}) "ETH" Side.BUY OrderType.LIMIT
          (1 * QUANTITY_SCALE) (100 * PRICE_SCALE) 0 TimeInForce.GTC).2
        (submit_order (init_engine {}) "ETH" Side.BUY OrderType.LIMIT
          (1 * QUANTITY_SCALE) (100 * PRICE_SCALE) 0 TimeInForce.GTC).1 =
        (false,
          (submit_order (init_engine {}) "ETH" Side.BUY OrderType.LIMIT
            (1 * QUANTITY_SCALE) (100 * PRICE_SCALE) 0 TimeInForce.GTC).2) := by
  refine ⟨by with_unfolding_all decide, ?_⟩
  exact ((C1_rest_and_cancel (init_engine {}) "ETH" Side.BUY
      (1 * QUANTITY_SCALE) (100 * PRICE_SCALE) 0 TimeInForce.GTC).1 _ _
    rfl (by with_unfolding_all decide)).2

/-- Claim C2: for every submit_order call (with positive equity), the
position-size gate accepts exactly when the projected notional — the
projected position quantity valued at the book's mid price, or at the
default unit price when no book exists — is at most
`max_position_size` as a fraction of equity; when the fraction
strictly exceeds the limit, submit_order emits ORDER_REJECTED with
RISK_LIMIT_EXCEEDED and returns order id 0. -/
theorem C2_position_risk_gate (s : EngineState) (symbol : String) (side : Side)
    (type : OrderType) (quantity price stop_price : Int) (tif : TimeInForce)
    (_heq : 0 < s.equity) :
    (projected_fraction s symbol side quantity ≤ s.risk_params.max_position_size →
      check_position_risk s symbol side quantity = true) ∧
    (s.risk_params.max_position_size < projected_fraction s symbol side quantity →
      check_position_risk s symbol side quantity = false ∧
      submit_order s symbol side type quantity price stop_price tif =
        (0, emit_event s EventType.ORDER_REJECTED 0 symbol 0 quantity
          ErrorCode.RISK_LIMIT_EXCEEDED "Position size limit exceeded")) := by
  have hkey : check_position_risk s symbol side quantity =
      decide (projected_fraction s symbol side quantity ≤
        s.risk_params.max_position_size) := by
    rw [check_position_risk, projected_fraction, projected_quantity]
    rcases hl : lookupKey symbol s.positions with _ | pos <;>
      rcases hside : side <;>
        simp [hl, sub_eq_add_neg, abs_neg]
  constructor
  · intro h
    rw [hkey]
    exact decide_eq_true h
  · intro h
    have hfalse : check_position_risk s symbol side quantity = false := by
      rw [hkey]
      simp [not_le.mpr h]
    exact ⟨hfalse,
      submit_reject_risk s symbol side type quantity price stop_price tif hfalse⟩

/-- Claim C2 witness: on a fresh engine with no book (unit price 1.0)
and default risk (max 10 percent of the 1,000,000 equity), a market
BUY of 200,000 units projects a 20 percent fraction and is rejected
with id 0. -/
theorem C2_witness :
    (0 : Int) < (init_engine {}).equity ∧
      (init_engine {}).risk_params.max_position_size <
        projected_fraction (init_engine {}) "BTC" Side.BUY
          (200000 * QUANTITY_SCALE) ∧
      (submit_order (init_engine {}) "BTC" Side.BUY OrderType.MARKET
        (200000 * QUANTITY_SCALE) 0 0 TimeInForce.GTC).1 = 0 := by
  have h := (C2_position_risk_gate (init_engine {}) "BTC" Side.BUY
    OrderType.MARKET (200000 * QUANTITY_SCALE) 0 0 TimeInForce.GTC
    (by with_unfolding_all decide)).2 (by with_unfolding_all decide)
  exact ⟨by with_unfolding_all decide, by with_unfolding_all decide,
    by rw [h.2]⟩

/-- Claim C3 counterexample: on a long position of 1 nano-unit at
average 100.0, a same-direction buy of 1 nano-unit at 101.0 leaves an
average entry price of 0 (both per-term fixed-point divisions truncate
to 0), not the claimed (100.0·1 + 101.0·1)/2 = 100.5 in micro-units —
the claimed real-valued update formula fails where the truncating
divisions are inexact. -/
theorem C3_counterexample :
    (lookupKey "BTC" (update_position { init_engine {} with
        positions := [("BTC", ⟨"BTC", 1, 100 * PRICE_SCALE, 0, 0⟩)] }
      "BTC" Side.BUY 1 (101 * PRICE_SCALE)).positions).map
      Position.avg_entry_price = some 0 ∧
      ((0 : Int) : ℚ) ≠
        ((100 * PRICE_SCALE * |(1 : Int)| + 101 * PRICE_SCALE * |(1 : Int)| :
          Int) : ℚ) / ((|(1 + 1 : Int)| : Int) : ℚ) := by
  exact ⟨by decide, by with_unfolding_all decide⟩

/-- Claim C3 (amended): a same-direction fill on an existing position updates
the volume-weighted average entry price to
(oldAvg·|oldQty| + fillPrice·|fillQty|) / |newQty| (exactly, whenever
the fixed-point divisions are exact) and adds the signed delta to the
quantity, leaving realized PnL unchanged; an opposite-direction fill
leaves the average entry price unchanged, realizes
(fillPrice − avgEntryPrice)·min(|oldQty|, |fillQty|) (scaled) signed
by the prior direction into realized PnL, and adds the signed delta.
In particular: buy 10 @ 100, buy 10 @ 110 gives quantity 20 and
average 105; then sell 15 @ 120 gives quantity 5, realized PnL 225,
average still 105. -/
theorem C3_position_fill_accounting (s : EngineState) (symbol : String)
    (side : Side) (qty price : Int) (pos : Position)
    (hpos : lookupKey symbol s.positions = some pos) :
    (∀ delta : Int, delta = (if side = Side.BUY then qty else -qty) →
      ((0 ≤ pos.quantity ∧ 0 < delta) ∨ (pos.quantity ≤ 0 ∧ delta < 0)) →
      QUANTITY_SCALE ∣ pos.avg_entry_price * |pos.quantity| →
      QUANTITY_SCALE ∣ price * |delta| →
      |pos.quantity + delta| ∣
        (pos.avg_entry_price * |pos.quantity| + price * |delta|) →
      ∃ pos' : Position,
        lookupKey symbol (update_position s symbol side qty price).positions =
            some pos' ∧
          pos'.quantity = pos.quantity + delta ∧
          (pos'.avg_entry_price : ℚ) =
            ((pos.avg_entry_price * |pos.quantity| + price * |delta| : Int) : ℚ) /
              ((|pos.quantity + delta| : Int) : ℚ) ∧
          pos'.realized_pnl = pos.realized_pnl) ∧
    (∀ delta : Int, delta = (if side = Side.BUY then qty else -qty) →
      ¬ ((0 ≤ pos.quantity ∧ 0 < delta) ∨ (pos.quantity ≤ 0 ∧ delta < 0)) →
      pos.quantity + delta ≠ 0 →
      QUANTITY_SCALE ∣ (price - pos.avg_entry_price) * min |pos.quantity| |delta| →
      ∃ pos' : Position,
        lookupKey symbol (update_position s symbol side qty price).positions =
            some pos' ∧
          pos'.quantity = pos.quantity + delta ∧
          pos'.avg_entry_price = pos.avg_entry_price ∧
          (pos'.realized_pnl : ℚ) =
            (pos.realized_pnl : ℚ) +
              (if 0 < pos.quantity then (1 : ℚ) else -1) *
                (((price - pos.avg_entry_price) *
                    min |pos.quantity| |delta| : Int) : ℚ) /
                  ((QUANTITY_SCALE : Int) : ℚ)) ∧
    lookupKey "BTC" (update_position (update_position (init_engine {}) "BTC"
        Side.BUY (10 * QUANTITY_SCALE) (100 * PRICE_SCALE)) "BTC" Side.BUY
        (10 * QUANTITY_SCALE) (110 * PRICE_SCALE)).positions =
      some { symbol := "BTC", quantity := 20 * QUANTITY_SCALE,
             avg_entry_price := 105 * PRICE_SCALE, unrealized_pnl := 0,
             realized_pnl := 0 } ∧
    lookupKey "BTC" (update_position (update_position (update_position
        (init_engine {}) "BTC" Side.BUY (10 * QUANTITY_SCALE)
        (100 * PRICE_SCALE)) "BTC" Side.BUY (10 * QUANTITY_SCALE)
        (110 * PRICE_SCALE)) "BTC" Side.SELL (15 * QUANTITY_SCALE)
        (120 * PRICE_SCALE)).positions =
      some { symbol := "BTC", quantity := 5 * QUANTITY_SCALE,
             avg_entry_price := 105 * PRICE_SCALE, unrealized_pnl := 0,
             realized_pnl := 225 * PRICE_SCALE } := by
  have hQS : (QUANTITY_SCALE : Int) ≠ 0 := by decide
  refine ⟨?_, ?_, by decide, by decide⟩
  · intro delta hdelta hcond h1 h2 h3
    have hfr : fill_result pos side qty price = position_add pos price delta := by
      simp only [fill_result]
      rw [← hdelta, if_pos hcond]
    have hq' : (position_add pos price delta).quantity = pos.quantity + delta := by
      simp [position_add]
    have hqnz : pos.quantity + delta ≠ 0 := by
      rcases hcond with ⟨ha, hb⟩ | ⟨ha, hb⟩ <;> omega
    have hnz : (fill_result pos side qty price).quantity ≠ 0 := by
      rw [hfr, hq']
      exact hqnz
    refine ⟨fill_result pos side qty price, ?_, ?_, ?_, ?_⟩
    · rw [update_position_existing s symbol side qty price pos hpos hnz]
      simp only [emit_event]
      exact lookup_upsert ..
    · rw [hfr, hq']
    · obtain ⟨c1, hc1⟩ := h1
      obtain ⟨c2, hc2⟩ := h2
      have habs : |pos.quantity + delta| ≠ 0 := abs_ne_zero.mpr hqnz
      have havg : (fill_result pos side qty price).avg_entry_price =
          Int.tdiv (pos.avg_entry_price * |pos.quantity| + price * |delta|)
            |pos.quantity + delta| := by
        rw [hfr]
        simp only [position_add, cppDiv]
        rw [if_pos hqnz, hc1, hc2, Int.mul_tdiv_cancel_left _ hQS,
          Int.mul_tdiv_cancel_left _ hQS]
        congr 1
        ring
      rw [havg, tdiv_exact_cast _ _ habs h3]
    · rw [hfr]
      simp [position_add]
  · intro delta hdelta hncond hqnz h4
    have hfr : fill_result pos side qty price = position_reduce pos price delta := by
      simp only [fill_result]
      rw [← hdelta, if_neg hncond]
    have hq' : (position_reduce pos price delta).quantity = pos.quantity + delta := by
      simp [position_reduce]
    have hnz : (fill_result pos side qty price).quantity ≠ 0 := by
      rw [hfr, hq']
      exact hqnz
    refine ⟨fill_result pos side qty price, ?_, ?_, ?_, ?_⟩
    · rw [update_position_existing s symbol side qty price pos hpos hnz]
      simp only [emit_event]
      exact lookup_upsert ..
    · rw [hfr, hq']
    · rw [hfr]
      simp [position_reduce]
    · rw [hfr]
      have hpnl := tdiv_exact_cast
        ((price - pos.avg_entry_price) * min |pos.quantity| |delta|)
        QUANTITY_SCALE hQS h4
      by_cases hl : 0 < pos.quantity
      · simp only [position_reduce, cppDiv, if_pos hl]
        push_cast
        rw [hpnl]
        push_cast
        ring
      · simp only [position_reduce, cppDiv, if_neg hl]
        push_cast
        rw [hpnl]
        push_cast
        ring

/-- Claim C3 witness: the same-direction part instantiated at the
second buy of the spec's example (buy 10 @ 110 onto a long 10 @ 100
position). -/
theorem C3_witness :
    (∃ pos' : Position,
      lookupKey "BTC" (update_position (update_position (init_engine {})
          "BTC" Side.BUY (10 * QUANTITY_SCALE) (100 * PRICE_SCALE)) "BTC"
          Side.BUY (10 * QUANTITY_SCALE) (110 * PRICE_SCALE)).positions =
          some pos' ∧
        pos'.quantity =
          (opened_position "BTC" Side.BUY (10 * QUANTITY_SCALE)
              (100 * PRICE_SCALE)).quantity + 10 * QUANTITY_SCALE ∧
        (pos'.avg_entry_price : ℚ) =
          (((opened_position "BTC" Side.BUY (10 * QUANTITY_SCALE)
                (100 * PRICE_SCALE)).avg_entry_price *
              |(opened_position "BTC" Side.BUY (10 * QUANTITY_SCALE)
                (100 * PRICE_SCALE)).quantity| +
              110 * PRICE_SCALE * |(10 * QUANTITY_SCALE : Int)| : Int) : ℚ) /
            ((|(opened_position "BTC" Side.BUY (10 * QUANTITY_SCALE)
                (100 * PRICE_SCALE)).quantity + 10 * QUANTITY_SCALE| : Int) : ℚ) ∧
        pos'.realized_pnl =
          (opened_position "BTC" Side.BUY (10 * QUANTITY_SCALE)
            (100 * PRICE_SCALE)).realized_pnl) := by
  exact (C3_position_fill_accounting
      (update_position (init_engine {}) "BTC" Side.BUY (10 * QUANTITY_SCALE)
        (100 * PRICE_SCALE))
      "BTC" Side.BUY (10 * QUANTITY_SCALE) (110 * PRICE_SCALE)
      (opened_position "BTC" Side.BUY (10 * QUANTITY_SCALE) (100 * PRICE_SCALE))
      (by decide)).1
    (10 * QUANTITY_SCALE) (by decide) (by decide) (by decide) (by decide)
    (by decide)

/-- A key found in an association list is a member. -/
theorem lookup_some_mem {κ α : Type} [DecidableEq κ] (k : κ) (v : α)
    (l : List (κ × α)) (h : lookupKey k l = some v) : (k, v) ∈ l := by
  induction l with
  | nil => simp [lookupKey] at h
  | cons p rest ih =>
    by_cases hk : p.1 = k
    · rw [lookupKey, if_pos hk] at h
      cases h
      have hp : p = (k, p.2) := Prod.ext hk rfl
      rw [← hp]
      exact List.mem_cons_self ..
    · rw [lookupKey, if_neg hk] at h
      exact List.mem_cons_of_mem _ (ih h)

/-- Upserting a nonzero-quantity position preserves flat-freedom. -/
theorem noflat_upsert (l : List (String × Position)) (k : String)
    (v : Position) (hl : ∀ e ∈ l, e.2.quantity ≠ 0) (hv : v.quantity ≠ 0) :
    ∀ e ∈ upsertKey k v l, e.2.quantity ≠ 0 := by
  induction l with
  | nil =>
    intro e he
    simp only [upsertKey, List.mem_singleton] at he
    rw [he]
    exact hv
  | cons p rest ih =>
    intro e he
    by_cases hk : p.1 = k
    · rw [upsertKey, if_pos hk] at he
      rcases List.mem_cons.mp he with rfl | hmem
      · exact hv
      · exact hl e (List.mem_cons_of_mem _ hmem)
    · rw [upsertKey, if_neg hk] at he
      rcases List.mem_cons.mp he with rfl | hmem
      · exact hl _ (List.mem_cons_self ..)
      · exact ih (fun x hx => hl x (List.mem_cons_of_mem _ hx)) e hmem

/-- Erasing preserves flat-freedom. -/
theorem noflat_erase (l : List (String × Position)) (k : String)
    (hl : ∀ e ∈ l, e.2.quantity ≠ 0) :
    ∀ e ∈ eraseKey k l, e.2.quantity ≠ 0 := by
  intro e he
  exact hl e (List.mem_of_mem_filter he)

/-- Source `update_position` never leaves a flat position in the table when
the fill quantity is nonzero: a new position gets the nonzero signed
quantity, and an update whose result is flat is erased. -/
theorem update_position_noflat (s : EngineState) (symbol : String)
    (side : Side) (qty price : Int) (hq : qty ≠ 0)
    (h : no_flat_positions s) :
    no_flat_positions (update_position s symbol side qty price) := by
  rcases hpos : lookupKey symbol s.positions with _ | pos
  · rw [update_position, hpos]
    intro e he
    simp only [emit_event] at he
    refine noflat_upsert s.positions symbol
      (opened_position symbol side qty price) h ?_ e he
    rcases side <;> simpa [opened_position] using hq
  · by_cases hz : (fill_result pos side qty price).quantity = 0
    · have heq : update_position s symbol side qty price =
          emit_event { s with positions := eraseKey symbol s.positions }
            EventType.POSITION_CLOSED 0 symbol price qty ErrorCode.OK
            "Position closed" := by
        rw [update_position, hpos]
        simp [hz]
      rw [heq]
      intro e he
      simp only [emit_event] at he
      exact noflat_erase s.positions symbol h e he
    · rw [update_position_existing s symbol side qty price pos hpos hz]
      intro e he
      simp only [emit_event] at he
      exact noflat_upsert s.positions symbol _ h hz e he

/-- Source `simulate_fill` changes the position table exactly as
`update_position` does. -/
theorem simulate_fill_positions (s : EngineState) (o : Order) (p : Int) :
    (simulate_fill s o p).positions =
      (update_position s o.symbol o.side o.quantity p).positions := by
  simp [simulate_fill, emit_event]

/-- The submitted state keeps the position table untouched. -/
theorem submitted_state_positions (s : EngineState) (symbol : String)
    (side : Side) (type : OrderType) (quantity price stop_price : Int)
    (tif : TimeInForce) :
    (submitted_state s symbol side type quantity price stop_price tif).positions =
      s.positions := by
  simp [submitted_state, emit_event]

/-- Source `submit_order` with a nonzero quantity preserves flat-freedom. -/
theorem submit_order_noflat (s : EngineState) (symbol : String) (side : Side)
    (type : OrderType) (quantity price stop_price : Int) (tif : TimeInForce)
    (hq : quantity ≠ 0) (h : no_flat_positions s) :
    no_flat_positions
      (submit_order s symbol side type quantity price stop_price tif).2 := by
  by_cases h1 : check_position_risk s symbol side quantity = false
  · rw [submit_reject_risk s symbol side type quantity price stop_price tif h1]
    exact h
  · by_cases h2 : check_order_count_risk s = false
    · rw [submit_order, if_neg h1, if_pos h2]
      exact h
    · by_cases h3 : s.pool_free = 0
      · rw [submit_order, if_neg h1, if_neg h2, if_pos h3]
        exact h
      · have h1' : check_position_risk s symbol side quantity = true :=
          Bool.not_eq_false _ ▸ h1
        have h2' : check_order_count_risk s = true :=
          Bool.not_eq_false _ ▸ h2
        have hs2 : no_flat_positions
            (submitted_state s symbol side type quantity price stop_price tif) := by
          intro e he
          rw [submitted_state_positions] at he
          exact h e he
        by_cases ht : type = OrderType.MARKET
        · subst ht
          rw [submit_accept_market s symbol side quantity price stop_price tif
            h1' h2' h3]
          intro e he
          rw [simulate_fill_positions] at he
          exact update_position_noflat _ _ _ _ _ hq hs2 e he
        · rw [submit_accept_resting s symbol side type quantity price
            stop_price tif h1' h2' h3 ht]
          exact hs2

/-- Source `cancel_order` never touches the position table. -/
theorem cancel_order_positions (s : EngineState) (id : Nat) :
    (cancel_order s id).2.positions = s.positions := by
  rcases hl : lookupKey id s.active_orders with _ | o
  · rw [cancel_order, hl]
  · rw [cancel_order, hl]
    by_cases ha : o.is_active = false
    · simp [ha]
    · simp [ha, emit_event]

/-- Every engine call (with nonzero submitted quantities) preserves
flat-freedom of the position table. -/
theorem engine_step_noflat (s : EngineState) (op : EngineOp)
    (hop : op_has_nonzero_qty op) (h : no_flat_positions s) :
    no_flat_positions (engine_step s op) := by
  cases op with
  | submit symbol side type quantity price stop_price tif =>
    exact submit_order_noflat s symbol side type quantity price stop_price tif
      hop h
  | cancel id =>
    intro e he
    rw [show engine_step s (EngineOp.cancel id) = (cancel_order s id).2 from rfl,
      cancel_order_positions] at he
    exact h e he
  | close symbol =>
    show no_flat_positions (close_position s symbol).2
    rcases hl : lookupKey symbol s.positions with _ | pos
    · have heq : (close_position s symbol).2 = s := by
        rw [close_position, hl]
      rw [heq]
      exact h
    · by_cases hf : pos.is_flat = true
      · have heq : (close_position s symbol).2 = s := by
          rw [close_position, hl]
          simp [hf]
        rw [heq]
        exact h
      · have heq : (close_position s symbol).2 =
            (submit_order s symbol
              (if 0 < pos.quantity then Side.SELL else Side.BUY)
              OrderType.MARKET |pos.quantity| 0 0 TimeInForce.GTC).2 := by
          rw [close_position, hl]
          simp [hf]
        rw [heq]
        have hz : pos.quantity ≠ 0 := by
          simpa [Position.is_flat] using hf
        exact submit_order_noflat s symbol _ OrderType.MARKET |pos.quantity| 0 0
          TimeInForce.GTC (by simpa using hz) h

/-- Claim C4 counterexample: submitting a MARKET order with quantity 0
on a fresh engine creates a position with quantity exactly 0 that is
retained in the live position table, violating the flat-position
invariant. -/
theorem C4_counterexample :
    (lookupKey "X" (engine_run (init_engine {}) [EngineOp.submit "X" Side.BUY
        OrderType.MARKET 0 0 0 TimeInForce.GTC]).positions).map
      Position.quantity = some 0 ∧
      ¬ no_flat_positions (engine_run (init_engine {}) [EngineOp.submit "X"
        Side.BUY OrderType.MARKET 0 0 0 TimeInForce.GTC]) := by
  have h1 : check_position_risk (init_engine {}) "X" Side.BUY 0 = true := by
    with_unfolding_all decide
  have h2 : check_order_count_risk (init_engine {}) = true := by decide
  have h3 : (init_engine {}).pool_free ≠ 0 := by decide
  have hrun : engine_run (init_engine {}) [EngineOp.submit "X" Side.BUY
      OrderType.MARKET 0 0 0 TimeInForce.GTC] =
      (submit_order (init_engine {}) "X" Side.BUY OrderType.MARKET 0 0 0
        TimeInForce.GTC).2 := rfl
  have hsub := submit_accept_market (init_engine {}) "X" Side.BUY 0 0 0
    TimeInForce.GTC h1 h2 h3
  have hps : (submit_order (init_engine {}) "X" Side.BUY OrderType.MARKET 0 0 0
      TimeInForce.GTC).2.positions =
      [("X", opened_position "X" Side.BUY 0 PRICE_SCALE)] := by
    rw [hsub]
    show (simulate_fill _ _ _).positions = _
    rw [simulate_fill_positions]
    show (update_position (submitted_state (init_engine {}) "X" Side.BUY
      OrderType.MARKET 0 0 0 TimeInForce.GTC) "X" Side.BUY 0 _).positions = _
    rw [update_position_new _ _ _ _ _
      (show lookupKey "X" (submitted_state (init_engine {}) "X" Side.BUY
        OrderType.MARKET 0 0 0 TimeInForce.GTC).positions = none from rfl)]
    rfl
  refine ⟨?_, fun hnf => ?_⟩
  · rw [hrun, hps]
    rfl
  · rw [hrun] at hnf
    have hmem : ("X", opened_position "X" Side.BUY 0 PRICE_SCALE) ∈
        (submit_order (init_engine {}) "X" Side.BUY OrderType.MARKET 0 0 0
          TimeInForce.GTC).2.positions := by
      rw [hps]
      exact List.mem_cons_self ..
    exact hnf _ hmem rfl

/-- Claim C4 (amended): for every sequence of engine operations in
which every submitted order has nonzero quantity, the live position
table contains no entry with quantity exactly zero after each
operation: a fill that brings a position to zero removes it, and no
such operation creates or retains a flat position. -/
theorem C4_no_flat_positions (rp : RiskParams) (ops : List EngineOp)
    (h : ∀ op ∈ ops, op_has_nonzero_qty op) :
    no_flat_positions (engine_run (init_engine rp) ops) := by
  have haux : ∀ (ops' : List EngineOp) (s : EngineState),
      no_flat_positions s → (∀ op ∈ ops', op_has_nonzero_qty op) →
      no_flat_positions (engine_run s ops') := by
    intro ops'
    induction ops' with
    | nil =>
      intro s hs _
      exact hs
    | cons op rest ih =>
      intro s hs hval
      rw [engine_run, List.foldl_cons]
      exact ih (engine_step s op)
        (engine_step_noflat s op (hval op (List.mem_cons_self ..)) hs)
        (fun x hx => hval x (List.mem_cons_of_mem _ hx))
  refine haux ops (init_engine rp) ?_ h
  intro e he
  simp [init_engine] at he

/-- Claim C4 witness: a market buy followed by a close leaves no flat
position. -/
theorem C4_witness :
    (∀ op ∈ [EngineOp.submit "X" Side.BUY OrderType.MARKET
        (1 * QUANTITY_SCALE) 0 0 TimeInForce.GTC, EngineOp.close "X"],
      op_has_nonzero_qty op) ∧
      no_flat_positions (engine_run (init_engine {})
        [EngineOp.submit "X" Side.BUY OrderType.MARKET (1 * QUANTITY_SCALE) 0 0
          TimeInForce.GTC, EngineOp.close "X"]) :=
  ⟨by decide, C4_no_flat_positions {}
    [EngineOp.submit "X" Side.BUY OrderType.MARKET (1 * QUANTITY_SCALE) 0 0
      TimeInForce.GTC, EngineOp.close "X"] (by decide)⟩

/-- Value of `x % C` when `x < 2 * C`. -/
theorem mod_split (x C : Nat) (_hC : 0 < C) (h : x < 2 * C) :
    x % C = if x < C then x else x - C := by
  split
  · exact Nat.mod_eq_of_lt (by omega)
  · rw [Nat.mod_eq_sub_mod (by omega)]
    exact Nat.mod_eq_of_lt (by omega)

/-- Closed form of the unread-element count for in-range indices. -/
theorem spsc_count_split {T : Type} {C : Nat} (hC : 0 < C)
    (q : SPSCQueue T C) (hq : spsc_inv q) :
    spsc_count q =
      if q.head < q.tail then q.head + C - q.tail else q.head - q.tail := by
  obtain ⟨hh, ht⟩ := hq
  rw [spsc_count, mod_split _ C hC (by omega)]
  split_ifs <;> omega

/-- The slot `count` steps past `tail` is exactly `head`. -/
theorem spsc_index_hit {T : Type} {C : Nat} (hC : 0 < C)
    (q : SPSCQueue T C) (hq : spsc_inv q) :
    (q.tail + spsc_count q) % C = q.head := by
  obtain ⟨hh, ht⟩ := hq
  rw [spsc_count_split hC q ⟨hh, ht⟩]
  by_cases hb : q.head < q.tail
  · rw [if_pos hb, mod_split _ C hC (by omega)]
    split_ifs <;> omega
  · rw [if_neg hb, mod_split _ C hC (by omega)]
    split_ifs <;> omega

/-- Slots strictly before `count` steps past `tail` differ from
`head`: a successful push never overwrites an unread slot. -/
theorem spsc_index_miss {T : Type} {C : Nat} (hC : 0 < C)
    (q : SPSCQueue T C) (hq : spsc_inv q) :
    ∀ i, i < spsc_count q → (q.tail + i) % C ≠ q.head := by
  intro i hi
  obtain ⟨hh, ht⟩ := hq
  rw [spsc_count_split hC q ⟨hh, ht⟩] at hi
  rw [mod_split _ C hC (by split_ifs at hi <;> omega)]
  split_ifs at hi ⊢ <;> omega

/-- The abstraction's length is the unread count. -/
theorem spsc_contents_length {T : Type} {C : Nat} (q : SPSCQueue T C) :
    (spsc_contents q).length = spsc_count q := by
  simp [spsc_contents]

/-- A successful push appends the value to the abstract contents: the
write lands in the one free slot past the unread window, every unread
slot is untouched. -/
theorem spsc_push_contents {T : Type} {C : Nat} (hCpos : 0 < C)
    (q : SPSCQueue T C) (hq : spsc_inv q) (v : T)
    (hne : spsc_count q ≠ C - 1) :
    spsc_contents
        ({ q with
          buffer := fun i => if i = q.head then v else q.buffer i
          head := (q.head + 1) % C } : SPSCQueue T C) =
      spsc_contents q ++ [v] := by
  obtain ⟨hh, ht⟩ := hq
  have hcount := spsc_count_split hCpos q ⟨hh, ht⟩
  have hcnt' : spsc_count
      ({ q with
        buffer := fun i => if i = q.head then v else q.buffer i
        head := (q.head + 1) % C } : SPSCQueue T C) = spsc_count q + 1 := by
    show ((q.head + 1) % C + C - q.tail) % C = spsc_count q + 1
    rw [hcount] at hne
    rw [mod_split (q.head + 1) C hCpos (by omega),
      mod_split _ C hCpos (by split_ifs <;> omega), hcount]
    split_ifs at hne ⊢ <;> omega
  show (List.range _).map _ = _
  rw [hcnt', List.range_succ, List.map_append]
  congr 1
  · apply List.map_congr_left
    intro i hi
    rw [List.mem_range] at hi
    have hmiss := spsc_index_miss hCpos q ⟨hh, ht⟩ i hi
    show (if (q.tail + i) % C = q.head then v else q.buffer ((q.tail + i) % C)) = _
    rw [if_neg hmiss]
  · have hhit := spsc_index_hit hCpos q ⟨hh, ht⟩
    show [if (q.tail + spsc_count q) % C = q.head then v
      else q.buffer ((q.tail + spsc_count q) % C)] = [v]
    rw [if_pos hhit]

/-- A nonempty queue's contents are the slot at `tail` followed by the
contents after the consumer advances `tail`. -/
theorem spsc_pop_contents {T : Type} {C : Nat} (hCpos : 0 < C)
    (q : SPSCQueue T C) (hq : spsc_inv q) (hne0 : spsc_count q ≠ 0) :
    spsc_contents q =
      q.buffer q.tail ::
        spsc_contents ({ q with tail := (q.tail + 1) % C } : SPSCQueue T C) := by
  obtain ⟨hh, ht⟩ := hq
  have hcount := spsc_count_split hCpos q ⟨hh, ht⟩
  have hcnt' : spsc_count ({ q with tail := (q.tail + 1) % C } : SPSCQueue T C) =
      spsc_count q - 1 := by
    show (q.head + C - (q.tail + 1) % C) % C = spsc_count q - 1
    rw [hcount] at hne0
    rw [mod_split (q.tail + 1) C hCpos (by omega),
      mod_split _ C hCpos (by split_ifs <;> omega), hcount]
    split_ifs at hne0 ⊢ <;> omega
  obtain ⟨m, hm⟩ : ∃ m, spsc_count q = m + 1 := ⟨spsc_count q - 1, by omega⟩
  rw [spsc_contents, hm, List.range_succ_eq_map, List.map_cons]
  congr 1
  · rw [Nat.add_zero, Nat.mod_eq_of_lt ht]
  · rw [spsc_contents, hcnt', hm, Nat.add_sub_cancel, List.map_map]
    apply List.map_congr_left
    intro i hi
    rw [List.mem_range] at hi
    show q.buffer ((q.tail + (i + 1)) % C) = q.buffer (((q.tail + 1) % C + i) % C)
    congr 1
    rw [mod_split (q.tail + 1) C hCpos (by omega)]
    by_cases hb : q.tail + 1 < C
    · rw [if_pos hb]
      congr 1
      omega
    · rw [if_neg hb]
      have h1 : q.tail + (i + 1) = C + i := by omega
      have h2 : q.tail + 1 - C = 0 := by omega
      rw [h1, h2, Nat.zero_add, Nat.add_comm C i, Nat.add_mod_right]

/-- Claim C6: for the SPSC queue of power-of-two capacity C (modelled
sequentially), capacity() reports C−1 usable slots; push fails exactly
when the queue holds C−1 unread elements and a failed push leaves the
queue untouched; a successful push appends the value to the unread
sequence, and pop returns the unread values in push order (the head of
the abstract contents), so popped values equal pushed values in push
order. -/
theorem C6_spsc_fifo {T : Type} (C k : Nat) (hC : C = 2 ^ k)
    (q : SPSCQueue T C) (v : T) (hq : spsc_inv q) :
    spsc_capacity C = C - 1 ∧
      ((spsc_push q v).1 = false ↔ (spsc_contents q).length = C - 1) ∧
      ((spsc_push q v).1 = false → (spsc_push q v).2 = q) ∧
      ((spsc_push q v).1 = true →
        spsc_contents (spsc_push q v).2 = spsc_contents q ++ [v] ∧
          spsc_inv (spsc_push q v).2) ∧
      (spsc_contents q = [] → spsc_pop q = (none, q)) ∧
      (∀ x xs, spsc_contents q = x :: xs →
        (spsc_pop q).1 = some x ∧ spsc_contents (spsc_pop q).2 = xs ∧
          spsc_inv (spsc_pop q).2) := by
  obtain ⟨hh, ht⟩ := hq
  have hCpos : 0 < C := by
    rw [hC]
    exact Nat.two_pow_pos k
  have hmask : ∀ x : Nat, x &&& (C - 1) = x % C := by
    intro x
    rw [hC]
    exact Nat.and_pow_two_sub_one_eq_mod x k
  have hpush : spsc_push q v =
      (if (q.head + 1) % C = q.tail then (false, q)
       else (true,
        { q with
          buffer := fun i => if i = q.head then v else q.buffer i
          head := (q.head + 1) % C })) := by
    rw [spsc_push, hmask]
  have hpop : spsc_pop q =
      (if q.tail = q.head then (none, q)
       else (some (q.buffer q.tail),
        { q with tail := (q.tail + 1) % C })) := by
    rw [spsc_pop, hmask]
  have hcount := spsc_count_split hCpos q ⟨hh, ht⟩
  have hlen := spsc_contents_length (q := q)
  have hiff : ((spsc_push q v).1 = false) ↔ (q.head + 1) % C = q.tail := by
    rw [hpush]
    by_cases hf : (q.head + 1) % C = q.tail
    · simp [hf]
    · simp [hf]
  refine ⟨rfl, ?_, ?_, ?_, ?_, ?_⟩
  · rw [hiff, hlen, hcount, mod_split (q.head + 1) C hCpos (by omega)]
    split_ifs <;> omega
  · intro hfail
    have hf := hiff.mp hfail
    rw [hpush, if_pos hf]
  · intro hsucc
    have hf : (q.head + 1) % C ≠ q.tail := by
      intro hcontra
      rw [hiff.mpr hcontra] at hsucc
      cases hsucc
    have hne : spsc_count q ≠ C - 1 := by
      intro hcontra
      apply hf
      rw [hcount] at hcontra
      rw [mod_split (q.head + 1) C hCpos (by omega)]
      split_ifs at hcontra ⊢ <;> omega
    rw [hpush, if_neg hf]
    exact ⟨spsc_push_contents hCpos q ⟨hh, ht⟩ v hne,
      Nat.mod_lt _ hCpos, ht⟩
  · intro hempty
    have hzero : spsc_count q = 0 := by
      rw [← hlen, hempty]
      rfl
    have hth : q.tail = q.head := by
      rw [hcount] at hzero
      split_ifs at hzero <;> omega
    rw [hpop, if_pos hth]
  · intro x xs hcont
    have hne0 : spsc_count q ≠ 0 := by
      rw [← hlen, hcont]
      simp
    have hth : q.tail ≠ q.head := by
      intro hcontra
      apply hne0
      rw [hcount]
      split_ifs <;> omega
    have hchain := spsc_pop_contents hCpos q ⟨hh, ht⟩ hne0
    rw [hcont] at hchain
    injection hchain with hx hxs
    rw [hpop, if_neg hth]
    exact ⟨by rw [hx], hxs.symm, hh, Nat.mod_lt _ hCpos⟩

/-- Claim C6 witness: a push on the empty queue of capacity 4 appends
the value. -/
theorem C6_witness :
    spsc_inv (spsc_init Int 4) ∧
      spsc_capacity 4 = 3 ∧
      ((spsc_push (spsc_init Int 4) 7).1 = true →
        spsc_contents (spsc_push (spsc_init Int 4) 7).2 =
          spsc_contents (spsc_init Int 4) ++ [7] ∧
          spsc_inv (spsc_push (spsc_init Int 4) 7).2) := by
  have h := C6_spsc_fifo 4 2 (by norm_num) (spsc_init Int 4) 7
    (by simp [spsc_inv, spsc_init])
  exact ⟨by simp [spsc_inv, spsc_init], h.1, h.2.2.2.1⟩

/-- Claim C10: update_bid and update_ask with a level index at or
beyond MAX_ORDERBOOK_LEVELS leave the orderbook entirely unchanged. -/
theorem C10_update_out_of_range_frame (b : Orderbook) (level : Nat)
    (price qty : Int) (h : MAX_ORDERBOOK_LEVELS ≤ level) :
    update_bid b level price qty = b ∧ update_ask b level price qty = b := by
  constructor
  · rw [update_bid, if_neg (by omega)]
  · rw [update_ask, if_neg (by omega)]

/-- Claim C10 witness: concrete instance at level 25. -/
theorem C10_witness :
    MAX_ORDERBOOK_LEVELS ≤ 25 ∧
      update_bid example_book 25 7 9 = example_book ∧
      update_ask example_book 25 7 9 = example_book :=
  ⟨by decide, C10_update_out_of_range_frame example_book 25 7 9 (by decide)⟩

end Godbrain
